import Mathlib

/-!
Verification of the log-pattern compiler in `logger/pattern.go`:
the finite-state lexer `lex`, the compiler `parse`, the executor
`pattern.write`, the built-in field table `fields`, and the numeric
formatter `atoi`.  Strings are embedded as `List Char` (Go operates on
rune slices), buffers as `List Char` with renderers mapping a buffer to
the extended buffer, and Go's `int64` arithmetic as `Int` with Go's
truncated division written `Int.tdiv` / `Int.tmod`.
-/

namespace Logger

/-- Token kinds produced by the lexer (Go `itemType`:
`itemText`, `itemField`, `itemHeader`). -/
inductive itemType
  | text
  | field
  | header
  deriving DecidableEq

/-- Lexer states (Go `state`: `stateStart`, `stateText`, `stateDollar`,
`stateField`, `stateDot`, `stateHeader`). -/
inductive state
  | start
  | text
  | dollar
  | field
  | dot
  | header
  deriving DecidableEq

/-- Identifier characters for field names, from the `isIDChar` closure in
`lex`: `[A-Za-z0-9_-]`. -/
def isIDChar (r : Char) : Bool :=
  ('a' ≤ r && r ≤ 'z') || ('A' ≤ r && r ≤ 'Z') || ('0' ≤ r && r ≤ '9') || r = '_' || r = '-'

/-- The literal `"$header"` compared against the consumed prefix in the
Field state of `lex`. -/
def headerLit : List Char := ['$', 'h', 'e', 'a', 'd', 'e', 'r']

/-- The literal `"$header."`, whose length (8) the compiler strips from a
Header token. -/
def headerDot : List Char := ['$', 'h', 'e', 'a', 'd', 'e', 'r', '.']

/-- The loop body of Go's `lex`.  `s` is the full input slice, `i` the
number of runes consumed so far, and the last argument is the remaining
suffix `s.drop i`; recursion is structural on that suffix, so `i = s.length`
when it is exhausted and the end-of-input returns use `i` where Go uses
`len(s)`.  Each arm mirrors the corresponding `case` of the Go switch. -/
def lexLoop (s : List Char) : state → Nat → List Char → itemType × Nat
  | st, i, [] =>
    match st with
    | .dot => (.field, i - 1)
    | .field => (.field, i)
    | .header => (.header, i)
    | _ => (.text, i)
  | st, i, r :: rest =>
    match st with
    | .start =>
      if r = '$' then lexLoop s .dollar (i + 1) rest
      else lexLoop s .text (i + 1) rest
    | .text =>
      if r = '$' then (.text, i)
      else lexLoop s .text (i + 1) rest
    | .dollar =>
      if isIDChar r then lexLoop s .field (i + 1) rest
      else lexLoop s .text (i + 1) rest
    | .field =>
      if r = '.' then
        if s.take i = headerLit then lexLoop s .dot (i + 1) rest
        else (.field, i)
      else if isIDChar r then lexLoop s .field (i + 1) rest
      else (.field, i)
    | .dot =>
      if isIDChar r then lexLoop s .header (i + 1) rest
      else (.field, i)
    | .header =>
      if isIDChar r then lexLoop s .header (i + 1) rest
      else (.header, i)

/-- Go `lex`: classify the next token of `s` and return its kind together
with its length. -/
def lex (s : List Char) : itemType × Nat :=
  lexLoop s .start 0 s

/-- Go `time.Time`, embedded as the data the renderers read from it:
the instant in Unix nanoseconds plus the broken-down calendar fields
exposed by the accessor methods. -/
structure Time where
  unixNano : Int
  year : Int
  month : Int
  day : Int
  hour : Int
  minute : Int
  second : Int
  nanosecond : Int

/-- Go `*http.Request`, reduced to the attributes the renderers read. -/
structure Request where
  method : List Char
  requestURI : List Char
  proto : List Char
  rawQuery : List Char
  host : List Char
  remoteAddr : List Char
  headers : List (List Char × List Char)

/-- Go `*http.Response`, reduced to the attributes the renderers read;
`request` is the nested upstream request. -/
structure Response where
  statusCode : Int
  contentLength : Int
  request : Request

/-- Go `field`: a renderer taking the buffer and the four data inputs
(start time, end time, response, request) and returning the buffer with
its output appended. -/
def field : Type :=
  List Char → Time → Time → Response → Request → List Char

/-- Go `pattern`: an ordered list of renderers. -/
def pattern : Type := List field

/-- Go `pattern.write`: run every renderer in order over the buffer, then
append `'\n'` unless the buffer is empty (`b.Len() == 0`). -/
def pattern.write (p : pattern) (b : List Char) (t1 t2 : Time) (w : Response) (r : Request) :
    List Char :=
  let b2 := p.foldl (fun acc fn => fn acc t1 t2 w r) b
  if b2.length = 0 then b2 else b2 ++ ['\n']

/-- The bytes a pattern's renderers deliver into a fresh empty buffer. -/
def rendered (p : pattern) (t1 t2 : Time) (w : Response) (r : Request) : List Char :=
  p.foldl (fun acc fn => fn acc t1 t2 w r) []

/-- Modelled from the spec: the numeric formatter `atoi` is called by every
numeric renderer in `pattern.go` and exercised by `TestAtoi`, but its body
is not among the sources; spec 4.1 defines it as the decimal representation
of the value, a leading `-` for negatives, and the magnitude's digits
left-padded with `0` to `minWidth` digits (the sign not counting toward the
padded width, and no padding when the magnitude already has enough digits).
Here it returns the emitted characters; renderers append them. -/
def atoi (v : Int) (pad : Nat) : List Char :=
  let ds := Nat.toDigits 10 v.natAbs
  (if v < 0 then ['-'] else []) ++ List.replicate (pad - ds.length) '0' ++ ds

/-- Index of the last `':'` in the list, if any. -/
def lastColon : List Char → Option Nat
  | [] => none
  | c :: cs =>
    match lastColon cs with
    | some i => some (i + 1)
    | none => if c = ':' then some 0 else none

/-- Modelled from the spec: `net.SplitHostPort` is Go standard library,
outside this repository; spec 4.2 only requires that a host and port be
split from the address, with no parsable split yielding empty strings.
Modelled as splitting at the last `':'`, failing when there is none. -/
def splitHostPort (s : List Char) : Option (List Char × List Char) :=
  match lastColon s with
  | none => none
  | some i => some (s.take i, s.drop (i + 1))

/-- Go `r.Header.Get(name)`: first value stored under the name,
case-insensitively, or the empty string. -/
def headerGet (hs : List (List Char × List Char)) (name : List Char) : List Char :=
  match hs.find? (fun kv => kv.1.map Char.toLower == name.map Char.toLower) with
  | some kv => kv.2
  | none => []

/-- Go `shortMonthNames`. -/
def shortMonthNames : List (List Char) :=
  (["---", "Jan", "Feb", "Mar", "Apr", "May", "Jun", "Jul", "Aug", "Sep", "Oct",
    "Nov", "Dec"]).map String.toList

/-- The `$remote_host` renderer: host part of `r.RemoteAddr`, empty when
the split fails (Go's `net.SplitHostPort` returns `""` on error and the
error is discarded). -/
def remoteHost : field := fun b _ _ _ r =>
  b ++ (match splitHostPort r.remoteAddr with
        | some hp => hp.1
        | none => [])

/-- The `$remote_port` renderer: port part of `r.RemoteAddr`, empty when
the split fails. -/
def remotePort : field := fun b _ _ _ r =>
  b ++ (match splitHostPort r.remoteAddr with
        | some hp => hp.2
        | none => [])

/-- The `$response_time_ms` renderer: `d := t2.Sub(t1).Nanoseconds()`,
then whole seconds `d / Second`, dot, and `d % Second / Millisecond`
zero-padded to 3 digits (Go `int64` division truncates toward zero). -/
def responseTimeMs : field := fun b t1 t2 _ _ =>
  let d := t2.unixNano - t1.unixNano
  b ++ atoi (d.tdiv 1000000000) 0 ++ ['.'] ++ atoi ((d.tmod 1000000000).tdiv 1000000) 3

/-- The `$response_time_us` renderer: whole seconds, dot, and
`d % Second / Microsecond` zero-padded to 6 digits. -/
def responseTimeUs : field := fun b t1 t2 _ _ =>
  let d := t2.unixNano - t1.unixNano
  b ++ atoi (d.tdiv 1000000000) 0 ++ ['.'] ++ atoi ((d.tmod 1000000000).tdiv 1000) 6

/-- The `$response_time_ns` renderer: whole seconds, dot, and
`d % Second / Nanosecond` zero-padded to 9 digits. -/
def responseTimeNs : field := fun b t1 t2 _ _ =>
  let d := t2.unixNano - t1.unixNano
  b ++ atoi (d.tdiv 1000000000) 0 ++ ['.'] ++ atoi ((d.tmod 1000000000).tdiv 1) 9

/-- Go's `fields` map of built-in renderers, as a lookup function; each
entry appends to the buffer exactly the bytes the Go renderer writes. -/
def fields (name : List Char) : Option field :=
  if name = "$remote_addr".toList then
    some (fun b _ _ _ r => b ++ r.remoteAddr)
  else if name = "$remote_host".toList then some remoteHost
  else if name = "$remote_port".toList then some remotePort
  else if name = "$request".toList then
    some (fun b _ _ _ r => b ++ r.method ++ [' '] ++ r.requestURI ++ [' '] ++ r.proto)
  else if name = "$request_args".toList then
    some (fun b _ _ _ r => b ++ r.rawQuery)
  else if name = "$request_host".toList then
    some (fun b _ _ _ r => b ++ r.host)
  else if name = "$request_method".toList then
    some (fun b _ _ _ r => b ++ r.method)
  else if name = "$request_uri".toList then
    some (fun b _ _ _ r => b ++ r.requestURI)
  else if name = "$request_proto".toList then
    some (fun b _ _ _ r => b ++ r.proto)
  else if name = "$response_body_size".toList then
    some (fun b _ _ w _ => b ++ atoi w.contentLength 0)
  else if name = "$response_status".toList then
    some (fun b _ _ w _ => b ++ atoi w.statusCode 0)
  else if name = "$response_time_ms".toList then some responseTimeMs
  else if name = "$response_time_us".toList then some responseTimeUs
  else if name = "$response_time_ns".toList then some responseTimeNs
  else if name = "$time_unix_ms".toList then
    some (fun b _ t2 _ _ => b ++ atoi (t2.unixNano.tdiv 1000000) 0)
  else if name = "$time_unix_us".toList then
    some (fun b _ t2 _ _ => b ++ atoi (t2.unixNano.tdiv 1000) 0)
  else if name = "$time_unix_ns".toList then
    some (fun b _ t2 _ _ => b ++ atoi t2.unixNano 0)
  else if name = "$time_common".toList then
    some (fun b _ t2 _ _ =>
      b ++ atoi t2.day 2 ++ ['/'] ++ shortMonthNames.getD t2.month.toNat [] ++ ['/'] ++
        atoi t2.year 4 ++ [':'] ++ atoi t2.hour 2 ++ [':'] ++ atoi t2.minute 2 ++ [':'] ++
        atoi t2.second 2 ++ " +0000".toList)
  else if name = "$time_rfc3339".toList then
    some (fun b _ t2 _ _ =>
      b ++ atoi t2.year 4 ++ ['-'] ++ atoi t2.month 2 ++ ['-'] ++ atoi t2.day 2 ++ ['T'] ++
        atoi t2.hour 2 ++ [':'] ++ atoi t2.minute 2 ++ [':'] ++ atoi t2.second 2 ++ ['Z'])
  else if name = "$time_rfc3339_ms".toList then
    some (fun b _ t2 _ _ =>
      b ++ atoi t2.year 4 ++ ['-'] ++ atoi t2.month 2 ++ ['-'] ++ atoi t2.day 2 ++ ['T'] ++
        atoi t2.hour 2 ++ [':'] ++ atoi t2.minute 2 ++ [':'] ++ atoi t2.second 2 ++ ['.'] ++
        atoi (t2.nanosecond.tdiv 1000000) 3 ++ ['Z'])
  else if name = "$time_rfc3339_us".toList then
    some (fun b _ t2 _ _ =>
      b ++ atoi t2.year 4 ++ ['-'] ++ atoi t2.month 2 ++ ['-'] ++ atoi t2.day 2 ++ ['T'] ++
        atoi t2.hour 2 ++ [':'] ++ atoi t2.minute 2 ++ [':'] ++ atoi t2.second 2 ++ ['.'] ++
        atoi (t2.nanosecond.tdiv 1000) 6 ++ ['Z'])
  else if name = "$time_rfc3339_ns".toList then
    some (fun b _ t2 _ _ =>
      b ++ atoi t2.year 4 ++ ['-'] ++ atoi t2.month 2 ++ ['-'] ++ atoi t2.day 2 ++ ['T'] ++
        atoi t2.hour 2 ++ [':'] ++ atoi t2.minute 2 ++ [':'] ++ atoi t2.second 2 ++ ['.'] ++
        atoi t2.nanosecond 9 ++ ['Z'])
  else if name = "$upstream_addr".toList then
    some (fun b _ _ w _ => b ++ w.request.remoteAddr)
  else if name = "$upstream_host".toList then
    some (fun b _ _ w _ =>
      b ++ (match splitHostPort w.request.remoteAddr with
            | some hp => hp.1
            | none => []))
  else if name = "$upstream_port".toList then
    some (fun b _ _ w _ =>
      b ++ (match splitHostPort w.request.remoteAddr with
            | some hp => hp.2
            | none => []))
  else none

/-- The `text` helper closure of `parse`: append the literal substring. -/
def textField (val : List Char) : field := fun b _ _ _ _ => b ++ val

/-- The `header` helper closure of `parse`: append the named request
header's value. -/
def headerField (name : List Char) : field := fun b _ _ _ r =>
  b ++ headerGet r.headers name

/-- The loop of Go's `parse`, with a fuel argument for structural
recursion: each iteration lexes one token off the front of `s` and either
appends the matching renderer or fails on an unknown field name (the error
carries the offending token text; Go returns `nil, fmt.Errorf("invalid
field %q", val)`).  One unit of fuel is spent per iteration; since every
iteration consumes at least one rune, `s.length` fuel always suffices
(proved below), so the fuel-exhaustion arm is unreachable from `parse`. -/
def parseLoop (tbl : List Char → Option field) : Nat → List Char → Except (List Char) pattern
  | _, [] => .ok []
  | 0, _ :: _ => .error []
  | fuel + 1, c :: cs =>
    let s := c :: cs
    let tn := lex s
    let val := s.take tn.2
    let rest := s.drop tn.2
    match tn.1 with
    | .text => (parseLoop tbl fuel rest).map (fun p => textField val :: p)
    | .header => (parseLoop tbl fuel rest).map (fun p => headerField (val.drop 8) :: p)
    | .field =>
      match tbl val with
      | none => .error val
      | some f => (parseLoop tbl fuel rest).map (fun p => f :: p)

/-- Go `parse`: compile a format string against a field table. -/
def parse (s : List Char) (tbl : List Char → Option field) : Except (List Char) pattern :=
  parseLoop tbl s.length s

/-- The token stream `parse` consumes: repeatedly lex the remaining input,
recording each token's kind and text. -/
def tokensLoop : Nat → List Char → List (itemType × List Char)
  | _, [] => []
  | 0, _ :: _ => []
  | fuel + 1, c :: cs =>
    let s := c :: cs
    let tn := lex s
    (tn.1, s.take tn.2) :: tokensLoop fuel (s.drop tn.2)

/-- All tokens of a format string. -/
def tokens (s : List Char) : List (itemType × List Char) :=
  tokensLoop s.length s

/-- Spec-side notation: the decimal digits of `n` zero-padded on the left
to `w` digits, as the spec describes the fractional part of the
response-time renderers. -/
def padTo (w n : Nat) : List Char :=
  List.replicate (w - (Nat.toDigits 10 n).length) '0' ++ Nat.toDigits 10 n

/-- A sample start timestamp (2016-01-01T00:00:00Z as in `TestLog`,
with `unixNano` normalized to 0 for readability). -/
def sampleT1 : Time := ⟨0, 2016, 1, 1, 0, 0, 0, 0⟩

/-- The sample end timestamp: `sampleT1` plus 123456789 ns. -/
def sampleT2 : Time := ⟨123456789, 2016, 1, 1, 0, 0, 0, 123456789⟩

/-- The sample request of `TestLog`. -/
def sampleReq : Request :=
  ⟨"GET".toList, "/?q=x".toList, "HTTP/1.1".toList, "?q=x".toList,
   "foo.com".toList, "2.2.2.2:666".toList,
   [("User-Agent".toList, "Mozilla Firefox".toList)]⟩

/-- A request whose remote address has no parsable host:port split. -/
def sampleReqNoPort : Request := ⟨[], [], [], [], [], "2.2.2.2".toList, []⟩

/-- The sample response of `TestLog`. -/
def sampleResp : Response := ⟨200, 1234, ⟨[], [], [], [], [], "5.6.7.8:1234".toList, []⟩⟩

/-! ### Helper lemmas -/

theorem drop_cons_facts {s : List Char} {i : Nat} {r : Char} {t : List Char}
    (h : s.drop i = r :: t) :
    i < s.length ∧ s.drop (i + 1) = t ∧ s.take (i + 1) = s.take i ++ [r] ∧ s[i]? = some r := by
  have hi : i < s.length := by
    by_contra hle
    push_neg at hle
    rw [List.drop_eq_nil_iff.mpr hle] at h
    cases h
  have hg : s[i]? = some r := by
    have h2 := List.head?_drop s i
    rw [h] at h2
    exact h2.symm
  refine ⟨hi, ?_, ?_, hg⟩
  · rw [← List.drop_drop, h]
    rfl
  · rw [List.take_succ, hg]
    rfl

theorem lexLoop_text_fst :
    ∀ (rest s : List Char) (i : Nat), (lexLoop s .text i rest).1 = itemType.text := by
  intro rest
  induction rest with
  | nil => intro s i; rfl
  | cons r rest ih =>
    intro s i
    simp only [lexLoop]
    split
    · rfl
    · exact ih s (i + 1)

theorem int_ofNat_tdiv (m k : Nat) : (Int.ofNat m).tdiv (Int.ofNat k) = Int.ofNat (m / k) := rfl

theorem int_ofNat_tmod (m k : Nat) : (Int.ofNat m).tmod (Int.ofNat k) = Int.ofNat (m % k) := rfl

theorem atoi_ofNat (n p : Nat) :
    atoi (Int.ofNat n) p =
      List.replicate (p - (Nat.toDigits 10 n).length) '0' ++ Nat.toDigits 10 n := by
  have h : ¬ ((Int.ofNat n) < 0) := not_lt.mpr (Int.ofNat_nonneg n)
  simp [atoi, h]

theorem append_congr (b : List Char) {A B : List Char} (h : A = B) : b ++ A = b ++ B := by
  rw [h]

/-! ### Claim theorems -/

/-- C4: a `'$'` that is not immediately followed by an identifier character
in `[A-Za-z0-9_-]` (including a `'$'` that is the last character of the
input) is treated as literal text: the lexer classifies the run starting at
that `'$'` as a `Text` token, never as a `Field` or `Header` token. -/
theorem lex_lone_dollar_text :
    ∀ (c : Char) (rest : List Char),
      c = '$' →
      (∀ (r2 : Char) (t : List Char), rest = r2 :: t → isIDChar r2 = false) →
      (lex (c :: rest)).1 = itemType.text := by
  intro c rest hc hno
  subst hc
  cases rest with
  | nil => rfl
  | cons r2 t =>
    have hid := hno r2 t rfl
    simp only [lex, lexLoop, hid, if_true, Bool.false_eq_true, if_false]
    exact lexLoop_text_fst t _ 2

theorem lex_lone_dollar_text_witness :
    (lex ('$' :: "!abc".toList)).1 = itemType.text :=
  lex_lone_dollar_text '$' "!abc".toList rfl
    (fun r2 t h => by cases h; decide)

/-- C8: when the remote address has no parsable host:port split the
`$remote_host` and `$remote_port` renderers append nothing (the empty
string) rather than failing; when the split succeeds they append the host
part and the port part respectively. -/
theorem remote_host_port_degrade :
    ∀ (b : List Char) (t1 t2 : Time) (w : Response) (r : Request),
      ((splitHostPort r.remoteAddr).isNone = true →
        remoteHost b t1 t2 w r = b ∧ remotePort b t1 t2 w r = b) ∧
      (∀ h p, splitHostPort r.remoteAddr = some (h, p) →
        remoteHost b t1 t2 w r = b ++ h ∧ remotePort b t1 t2 w r = b ++ p) := by
  intro b t1 t2 w r
  constructor
  · intro hnone
    rw [Option.isNone_iff_eq_none] at hnone
    simp [remoteHost, remotePort, hnone]
  · intro h p hsome
    simp [remoteHost, remotePort, hsome]

theorem remote_host_port_degrade_witness :
    (remoteHost [] sampleT1 sampleT1 sampleResp sampleReq = [] ++ "2.2.2.2".toList ∧
      remotePort [] sampleT1 sampleT1 sampleResp sampleReq = [] ++ "666".toList) ∧
    (remoteHost [] sampleT1 sampleT1 sampleResp sampleReqNoPort = [] ∧
      remotePort [] sampleT1 sampleT1 sampleResp sampleReqNoPort = []) :=
  ⟨(remote_host_port_degrade [] sampleT1 sampleT1 sampleResp sampleReq).2
      "2.2.2.2".toList "666".toList (by decide),
    (remote_host_port_degrade [] sampleT1 sampleT1 sampleResp sampleReqNoPort).1 (by decide)⟩

/-- C2, counterexample: the executor checks the buffer's total length, not
the bytes received from the renderers.  The empty pattern (compiled from
the empty format string) delivers zero bytes, yet on a buffer already
holding `"x"` the code appends a line terminator, contradicting the claim
that zero received bytes mean no terminator for every buffer. -/
theorem write_nonempty_buffer_cex :
    parse [] fields = Except.ok ([] : pattern) ∧
    rendered ([] : pattern) sampleT1 sampleT2 sampleResp sampleReq = [] ∧
    pattern.write ([] : pattern) ['x'] sampleT1 sampleT2 sampleResp sampleReq = ['x', '\n'] ∧
    ['x', '\n'] ≠ (['x'] : List Char) :=
  ⟨rfl, rfl, by decide, by decide⟩

/-- C2, amended: for a fresh (empty) buffer, if the renderers deliver zero
bytes nothing is appended (in particular the pattern compiled from the
empty format string appends nothing); otherwise exactly one `'\n'` is
appended after the delivered bytes. -/
theorem write_line_terminator_amended :
    ∀ (p : pattern) (t1 t2 : Time) (w : Response) (r : Request),
      (rendered p t1 t2 w r = [] → pattern.write p [] t1 t2 w r = []) ∧
      (rendered p t1 t2 w r ≠ [] →
        pattern.write p [] t1 t2 w r = rendered p t1 t2 w r ++ ['\n']) := by
  intro p t1 t2 w r
  have key : pattern.write p [] t1 t2 w r =
      if (rendered p t1 t2 w r).length = 0 then rendered p t1 t2 w r
      else rendered p t1 t2 w r ++ ['\n'] := rfl
  constructor
  · intro h
    rw [key, if_pos (by rw [h]; rfl), h]
  · intro h
    rw [key, if_neg (fun hc => h (List.length_eq_zero.mp hc))]

theorem write_line_terminator_amended_witness :
    pattern.write [textField ['a']] [] sampleT1 sampleT2 sampleResp sampleReq =
      rendered [textField ['a']] sampleT1 sampleT2 sampleResp sampleReq ++ ['\n'] :=
  (write_line_terminator_amended [textField ['a']] sampleT1 sampleT2 sampleResp sampleReq).2
    (by decide)

/-- C7: rendering is deterministic — executing a compiled pattern with
identical inputs into two fresh empty buffers yields byte-identical
output. -/
theorem write_deterministic :
    ∀ (format : List Char) (p : pattern),
      parse format fields = Except.ok p →
      ∀ (t1 t2 : Time) (w : Response) (r : Request) (b1 b2 : List Char),
        b1 = [] → b2 = [] →
        pattern.write p b1 t1 t2 w r = pattern.write p b2 t1 t2 w r := by
  intro format p _ t1 t2 w r b1 b2 h1 h2
  rw [h1, h2]

theorem write_deterministic_witness :
    pattern.write [fun b _ _ _ r => b ++ r.remoteAddr] [] sampleT1 sampleT2 sampleResp
        sampleReq =
      pattern.write [fun b _ _ _ r => b ++ r.remoteAddr] [] sampleT1 sampleT2 sampleResp
        sampleReq :=
  write_deterministic "$remote_addr".toList [fun b _ _ _ r => b ++ r.remoteAddr] rfl
    sampleT1 sampleT2 sampleResp sampleReq [] [] rfl rfl

/-- C6: the numeric formatter writes the decimal representation with a
leading `-` for negatives, zero-pads the magnitude to `minWidth` digits
(the sign not counting toward the width, so the digit count is
`max minWidth digits`), never truncates a number wider than `minWidth`,
and handles the most negative 64-bit integer; the concrete cases are the
vectors of `TestAtoi`. -/
theorem atoi_spec :
    (∀ (v : Int) (pad : Nat),
        (atoi v pad).length =
          (if v < 0 then 1 else 0) + max pad (Nat.toDigits 10 v.natAbs).length ∧
        (pad ≤ (Nat.toDigits 10 v.natAbs).length →
          atoi v pad = (if v < 0 then ['-'] else []) ++ Nat.toDigits 10 v.natAbs)) ∧
    atoi 0 0 = "0".toList ∧ atoi 1 0 = "1".toList ∧ atoi (-1) 0 = "-1".toList ∧
    atoi 12345 0 = "12345".toList ∧ atoi (-12345) 0 = "-12345".toList ∧
    atoi 9223372036854775807 0 = "9223372036854775807".toList ∧
    atoi (-9223372036854775807) 0 = "-9223372036854775807".toList ∧
    atoi 0 5 = "00000".toList ∧ atoi 1 5 = "00001".toList ∧
    atoi (-1) 5 = "-00001".toList ∧ atoi 12345 5 = "12345".toList ∧
    atoi (-12345) 5 = "-12345".toList ∧
    atoi (-9223372036854775808) 0 = "-9223372036854775808".toList := by
  refine ⟨fun v pad => ⟨?_, ?_⟩, ?_, ?_, ?_, ?_, ?_, ?_, ?_, ?_, ?_, ?_, ?_, ?_, ?_⟩
  · simp only [atoi, List.length_append, List.length_replicate]
    split <;> simp <;> omega
  · intro hle
    simp only [atoi, Nat.sub_eq_zero_of_le hle, List.replicate_zero, List.append_nil,
      List.nil_append]
  all_goals decide

theorem atoi_spec_witness :
    5 ≤ (Nat.toDigits 10 (Int.natAbs (-12345))).length ∧
    atoi (-12345) 5 =
      (if (-12345 : Int) < 0 then ['-'] else []) ++ Nat.toDigits 10 (Int.natAbs (-12345)) :=
  ⟨by decide, (atoi_spec.1 (-12345) 5).2 (by decide)⟩

/-- C5: for an elapsed duration of `d ≥ 0` nanoseconds between the two
timestamps, `$response_time_ms` / `_us` / `_ns` emit the whole-seconds
part of `d`, a dot, and the sub-second part in milliseconds /
microseconds / nanoseconds zero-padded to 3 / 6 / 9 digits; in particular
`d = 123456789` renders `0.123`, `0.123456` and `0.123456789`. -/
theorem response_time_renders :
    ∀ (b : List Char) (t1 t2 : Time) (w : Response) (r : Request) (d : Nat),
      Int.ofNat d = t2.unixNano - t1.unixNano →
      (responseTimeMs b t1 t2 w r
          = b ++ Nat.toDigits 10 (d / 1000000000) ++ ['.']
              ++ padTo 3 (d % 1000000000 / 1000000) ∧
        responseTimeUs b t1 t2 w r
          = b ++ Nat.toDigits 10 (d / 1000000000) ++ ['.']
              ++ padTo 6 (d % 1000000000 / 1000) ∧
        responseTimeNs b t1 t2 w r
          = b ++ Nat.toDigits 10 (d / 1000000000) ++ ['.']
              ++ padTo 9 (d % 1000000000)) ∧
      (d = 123456789 →
        responseTimeMs b t1 t2 w r = b ++ "0.123".toList ∧
        responseTimeUs b t1 t2 w r = b ++ "0.123456".toList ∧
        responseTimeNs b t1 t2 w r = b ++ "0.123456789".toList) := by
  intro b t1 t2 w r d hd
  have e1 : t2.unixNano - t1.unixNano = Int.ofNat d := hd.symm
  have hms : responseTimeMs b t1 t2 w r
      = b ++ Nat.toDigits 10 (d / 1000000000) ++ ['.']
          ++ padTo 3 (d % 1000000000 / 1000000) := by
    simp only [responseTimeMs, e1, show (1000000000 : Int) = Int.ofNat 1000000000 from rfl,
      show (1000000 : Int) = Int.ofNat 1000000 from rfl, int_ofNat_tdiv, int_ofNat_tmod,
      atoi_ofNat, padTo]
    simp
  have hus : responseTimeUs b t1 t2 w r
      = b ++ Nat.toDigits 10 (d / 1000000000) ++ ['.']
          ++ padTo 6 (d % 1000000000 / 1000) := by
    simp only [responseTimeUs, e1, show (1000000000 : Int) = Int.ofNat 1000000000 from rfl,
      show (1000 : Int) = Int.ofNat 1000 from rfl, int_ofNat_tdiv, int_ofNat_tmod,
      atoi_ofNat, padTo]
    simp
  have hns : responseTimeNs b t1 t2 w r
      = b ++ Nat.toDigits 10 (d / 1000000000) ++ ['.']
          ++ padTo 9 (d % 1000000000) := by
    simp only [responseTimeNs, e1, show (1000000000 : Int) = Int.ofNat 1000000000 from rfl,
      show (1 : Int) = Int.ofNat 1 from rfl, int_ofNat_tdiv, int_ofNat_tmod,
      atoi_ofNat, padTo]
    simp
  refine ⟨⟨hms, hus, hns⟩, ?_⟩
  intro h123
  subst h123
  refine ⟨?_, ?_, ?_⟩
  · rw [hms]
    simp only [List.append_assoc]
    exact append_congr b (by decide)
  · rw [hus]
    simp only [List.append_assoc]
    exact append_congr b (by decide)
  · rw [hns]
    simp only [List.append_assoc]
    exact append_congr b (by decide)

theorem get_of_getElem? {s : List Char} {i : Nat} {r : Char} (hi : i < s.length)
    (h : s[i]? = some r) : s.get ⟨i, hi⟩ = r := by
  have h2 := List.getElem?_eq_getElem hi
  rw [h] at h2
  injection h2 with h3
  exact h3.symm

/-- C3: in the Dot state (entered with consumed prefix exactly
`"$header."`, so at position 8), an identifier character moves the lexer
to the Header state; any other character returns a `Field` token one
character short of the consumed span; and at end of input — the input
being exactly `"$header."` — the returned token has length
`s.length - 1`, i.e. the text `"$header"` without the trailing dot. -/
theorem lex_dot_state_step :
    ∀ (s : List Char),
      s.take 8 = headerDot →
      (∀ (r : Char) (t : List Char), s.drop 8 = r :: t →
          (isIDChar r = true → lexLoop s .dot 8 (r :: t) = lexLoop s .header 9 t) ∧
          (isIDChar r = false → lexLoop s .dot 8 (r :: t) = (.field, 8))) ∧
      (s.drop 8 = [] →
          s.length = 8 ∧ lexLoop s .dot 8 [] = (.field, s.length - 1) ∧
          s.take (s.length - 1) = headerLit ∧ lex s = (.field, s.length - 1)) := by
  intro s htake
  constructor
  · intro r t _
    constructor
    · intro hid
      simp [lexLoop, hid]
    · intro hid
      simp [lexLoop, hid]
  · intro hdrop
    have hs : s = headerDot := by
      conv_lhs => rw [← List.take_append_drop 8 s]
      rw [htake, hdrop, List.append_nil]
    subst hs
    exact ⟨rfl, rfl, by decide, by decide⟩

theorem lex_dot_state_step_witness :
    headerDot.length = 8 ∧
    lexLoop headerDot .dot 8 [] = (.field, headerDot.length - 1) ∧
    headerDot.take (headerDot.length - 1) = headerLit ∧
    lex headerDot = (.field, headerDot.length - 1) :=
  (lex_dot_state_step headerDot (by decide)).2 (by decide)

theorem lexLoop_bounds :
    ∀ (rest s : List Char) (st : state) (i : Nat),
      s.drop i = rest → i ≤ s.length →
      (st ≠ .start → 1 ≤ i) → (st = .dot → 2 ≤ i) →
      (s ≠ [] → 1 ≤ (lexLoop s st i rest).2) ∧ (lexLoop s st i rest).2 ≤ s.length := by
  intro rest
  induction rest with
  | nil =>
    intro s st i hdrop hle hnstart hdot
    have hlen : s.length ≤ i := List.drop_eq_nil_iff.mp hdrop
    cases st with
    | start =>
      refine ⟨fun hne => ?_, (by omega : i ≤ s.length)⟩
      have hpos : 0 < s.length := List.length_pos.mpr hne
      exact (by omega : 1 ≤ i)
    | text =>
      refine ⟨fun hne => ?_, (by omega : i ≤ s.length)⟩
      have hpos : 0 < s.length := List.length_pos.mpr hne
      exact (by omega : 1 ≤ i)
    | dollar =>
      refine ⟨fun hne => ?_, (by omega : i ≤ s.length)⟩
      have hpos : 0 < s.length := List.length_pos.mpr hne
      exact (by omega : 1 ≤ i)
    | field =>
      refine ⟨fun hne => ?_, (by omega : i ≤ s.length)⟩
      have hpos : 0 < s.length := List.length_pos.mpr hne
      exact (by omega : 1 ≤ i)
    | header =>
      refine ⟨fun hne => ?_, (by omega : i ≤ s.length)⟩
      have hpos : 0 < s.length := List.length_pos.mpr hne
      exact (by omega : 1 ≤ i)
    | dot =>
      have h2 : 2 ≤ i := hdot rfl
      exact ⟨fun _ => (by omega : 1 ≤ i - 1), (by omega : i - 1 ≤ s.length)⟩
  | cons r rest ih =>
    intro s st i hdrop hle hnstart hdot
    obtain ⟨hi, hdrop1, _htake1, _hget⟩ := drop_cons_facts hdrop
    have hle1 : i + 1 ≤ s.length := hi
    cases st with
    | start =>
      simp only [lexLoop]
      split
      · exact ih s .dollar (i + 1) hdrop1 hle1 (fun _ => by omega) (by simp)
      · exact ih s .text (i + 1) hdrop1 hle1 (fun _ => by omega) (by simp)
    | text =>
      have h1 : 1 ≤ i := hnstart (by simp)
      simp only [lexLoop]
      split
      · exact ⟨fun _ => (by omega : 1 ≤ i), (by omega : i ≤ s.length)⟩
      · exact ih s .text (i + 1) hdrop1 hle1 (fun _ => by omega) (by simp)
    | dollar =>
      simp only [lexLoop]
      split
      · exact ih s .field (i + 1) hdrop1 hle1 (fun _ => by omega) (by simp)
      · exact ih s .text (i + 1) hdrop1 hle1 (fun _ => by omega) (by simp)
    | field =>
      have h1 : 1 ≤ i := hnstart (by simp)
      simp only [lexLoop]
      split
      · split
        · exact ih s .dot (i + 1) hdrop1 hle1 (fun _ => by omega) (fun _ => by omega)
        · exact ⟨fun _ => (by omega : 1 ≤ i), (by omega : i ≤ s.length)⟩
      · split
        · exact ih s .field (i + 1) hdrop1 hle1 (fun _ => by omega) (by simp)
        · exact ⟨fun _ => (by omega : 1 ≤ i), (by omega : i ≤ s.length)⟩
    | dot =>
      have h2 : 2 ≤ i := hdot rfl
      simp only [lexLoop]
      split
      · exact ih s .header (i + 1) hdrop1 hle1 (fun _ => by omega) (by simp)
      · exact ⟨fun _ => (by omega : 1 ≤ i), (by omega : i ≤ s.length)⟩
    | header =>
      have h1 : 1 ≤ i := hnstart (by simp)
      simp only [lexLoop]
      split
      · exact ih s .header (i + 1) hdrop1 hle1 (fun _ => by omega) (by simp)
      · exact ⟨fun _ => (by omega : 1 ≤ i), (by omega : i ≤ s.length)⟩

theorem lex_bounds (s : List Char) (h : s ≠ []) :
    1 ≤ (lex s).2 ∧ (lex s).2 ≤ s.length := by
  have hb := lexLoop_bounds s s .start 0 (by simp) (by simp)
    (fun hc => absurd rfl hc) (by simp)
  exact ⟨hb.1 h, hb.2⟩

theorem parseLoop_fuel_irrel :
    ∀ (f1 : Nat) (tbl : List Char → Option field) (s : List Char) (f2 : Nat),
      s.length ≤ f1 → s.length ≤ f2 → parseLoop tbl f1 s = parseLoop tbl f2 s := by
  intro f1
  induction f1 with
  | zero =>
    intro tbl s f2 h1 _h2
    have hnil : s = [] := List.length_eq_zero.mp (Nat.le_zero.mp h1)
    subst hnil
    cases f2 <;> rfl
  | succ f ih =>
    intro tbl s f2 h1 h2
    cases s with
    | nil => cases f2 <;> rfl
    | cons c cs =>
      have hb := lex_bounds (c :: cs) (by simp)
      cases f2 with
      | zero => exact absurd h2 (by simp)
      | succ f2' =>
        have hrl : ((c :: cs).drop (lex (c :: cs)).2).length ≤ f ∧
            ((c :: cs).drop (lex (c :: cs)).2).length ≤ f2' := by
          rw [List.length_drop]
          simp only [List.length_cons] at h1 h2 ⊢
          omega
        have hIH := ih tbl ((c :: cs).drop (lex (c :: cs)).2) f2' hrl.1 hrl.2
        simp only [parseLoop]
        rw [hIH]

/-- C9: on any non-empty input the lexer returns a token length between 1
and the input length, and therefore the compiler's loop — here given
explicit fuel — consumes the whole format string: any fuel of at least
the input length (one unit per iteration) computes exactly `parse`. -/
theorem lex_progress_parse_total :
    (∀ s : List Char, s ≠ [] → 1 ≤ (lex s).2 ∧ (lex s).2 ≤ s.length) ∧
    (∀ (tbl : List Char → Option field) (fuel : Nat) (s : List Char),
      s.length ≤ fuel → parseLoop tbl fuel s = parse s tbl) :=
  ⟨lex_bounds,
    fun tbl fuel s h => parseLoop_fuel_irrel fuel tbl s s.length h (Nat.le_refl _)⟩

theorem lex_progress_parse_total_witness :
    (1 ≤ (lex "$a".toList).2 ∧ (lex "$a".toList).2 ≤ ("$a".toList).length) ∧
    parseLoop fields 5 "$a".toList = parse "$a".toList fields :=
  ⟨lex_progress_parse_total.1 "$a".toList (by decide),
    lex_progress_parse_total.2 fields 5 "$a".toList (by decide)⟩

theorem lexLoop_header_post :
    ∀ (rest s : List Char) (st : state) (i : Nat) (ty : itemType) (n : Nat),
      s.drop i = rest → i ≤ s.length →
      (st = .dot → i = 8 ∧ s.take 8 = headerDot) →
      (st = .header → 9 ≤ i ∧ s.take 8 = headerDot ∧
        ∃ h : 8 < s.length, isIDChar (s.get ⟨8, h⟩) = true) →
      lexLoop s st i rest = (ty, n) → ty = itemType.header →
      9 ≤ n ∧ n ≤ s.length ∧ s.take 8 = headerDot ∧
        ∃ h : 8 < s.length, isIDChar (s.get ⟨8, h⟩) = true := by
  intro rest
  induction rest with
  | nil =>
    intro s st i ty n hdrop hle hdotinv hheadinv hres hty
    subst hty
    have hlen : s.length ≤ i := List.drop_eq_nil_iff.mp hdrop
    cases st with
    | header =>
      obtain ⟨h9, htake8, hex⟩ := hheadinv rfl
      simp only [lexLoop] at hres
      injection hres with _h1 h2
      exact ⟨by omega, by omega, htake8, hex⟩
    | start => simp [lexLoop] at hres
    | text => simp [lexLoop] at hres
    | dollar => simp [lexLoop] at hres
    | field => simp [lexLoop] at hres
    | dot => simp [lexLoop] at hres
  | cons r rest ih =>
    intro s st i ty n hdrop hle hdotinv hheadinv hres hty
    subst hty
    obtain ⟨hi, hdrop1, htake1, hget⟩ := drop_cons_facts hdrop
    have hle1 : i + 1 ≤ s.length := hi
    cases st with
    | start =>
      simp only [lexLoop] at hres
      split at hres
      · exact ih s .dollar (i + 1) _ n hdrop1 hle1 (by simp) (by simp) hres rfl
      · exact ih s .text (i + 1) _ n hdrop1 hle1 (by simp) (by simp) hres rfl
    | text =>
      simp only [lexLoop] at hres
      split at hres
      · simp at hres
      · exact ih s .text (i + 1) _ n hdrop1 hle1 (by simp) (by simp) hres rfl
    | dollar =>
      simp only [lexLoop] at hres
      split at hres
      · exact ih s .field (i + 1) _ n hdrop1 hle1 (by simp) (by simp) hres rfl
      · exact ih s .text (i + 1) _ n hdrop1 hle1 (by simp) (by simp) hres rfl
    | field =>
      simp only [lexLoop] at hres
      split at hres
      · split at hres
        · rename_i hcdot hpref
          have hl := congrArg List.length hpref
          rw [List.length_take, min_eq_left hle] at hl
          have hl7 : i = 7 := by
            rw [show headerLit.length = 7 from rfl] at hl
            exact hl
          subst hl7
          have htake8 : s.take (7 + 1) = headerDot := by
            rw [htake1, hpref, hcdot]
            decide
          exact ih s .dot (7 + 1) _ n hdrop1 hle1
            (fun _ => ⟨by omega, htake8⟩) (by simp) hres rfl
        · simp at hres
      · split at hres
        · exact ih s .field (i + 1) _ n hdrop1 hle1 (by simp) (by simp) hres rfl
        · simp at hres
    | dot =>
      obtain ⟨hi8, htake8⟩ := hdotinv rfl
      subst hi8
      simp only [lexLoop] at hres
      split at hres
      · rename_i hcid
        have hgetel : s.get ⟨8, hi⟩ = r := get_of_getElem? hi hget
        refine ih s .header (8 + 1) _ n hdrop1 hle1 (by simp)
          (fun _ => ⟨by omega, htake8, ⟨hi, ?_⟩⟩) hres rfl
        rw [hgetel]
        exact hcid
      · simp at hres
    | header =>
      obtain ⟨h9, htake8, hex⟩ := hheadinv rfl
      simp only [lexLoop] at hres
      split at hres
      · exact ih s .header (i + 1) _ n hdrop1 hle1 (by simp)
          (fun _ => ⟨by omega, htake8, hex⟩) hres rfl
      · injection hres with _h1 h2
        exact ⟨by omega, by omega, htake8, hex⟩

/-- C10: every `Header` token spans text beginning with the exact prefix
`"$header."` followed by at least one identifier character; its length is
at least 9 and at most the input length, so the compiler's strip of the
8-character `"$header."` prefix is in bounds and leaves a non-empty
header name. -/
theorem header_token_shape :
    ∀ (s : List Char) (ty : itemType) (n : Nat),
      lex s = (ty, n) → ty = itemType.header →
      9 ≤ n ∧ n ≤ s.length ∧ (s.take n).take 8 = headerDot ∧
        (∃ h : 8 < s.length, isIDChar (s.get ⟨8, h⟩) = true) ∧
        ((s.take n).drop 8).length = n - 8 ∧ 1 ≤ n - 8 := by
  intro s ty n hlex hty
  obtain ⟨h9, hle, htake8, hex⟩ :=
    lexLoop_header_post s s .start 0 ty n (by simp) (by simp) (by simp) (by simp) hlex hty
  refine ⟨h9, hle, ?_, hex, ?_, by omega⟩
  · rw [List.take_take, min_eq_left (by omega : 8 ≤ n)]
    exact htake8
  · rw [List.length_drop, List.length_take, min_eq_left hle]

theorem header_token_shape_witness :
    9 ≤ 9 ∧ 9 ≤ ("$header.x".toList).length ∧
    (("$header.x".toList).take 9).take 8 = headerDot ∧
    (∃ h : 8 < ("$header.x".toList).length,
      isIDChar (("$header.x".toList).get ⟨8, h⟩) = true) ∧
    ((("$header.x".toList).take 9).drop 8).length = 9 - 8 ∧ 1 ≤ 9 - 8 :=
  header_token_shape "$header.x".toList .header 9 (by decide) rfl

theorem parseLoop_error_of_mem :
    ∀ (fuel : Nat) (s : List Char) (tbl : List Char → Option field) (val : List Char),
      (itemType.field, val) ∈ tokensLoop fuel s → (tbl val).isNone = true →
      ∃ e, parseLoop tbl fuel s = .error e := by
  intro fuel
  induction fuel with
  | zero =>
    intro s tbl val hmem _
    cases s with
    | nil => simp [tokensLoop] at hmem
    | cons c cs => simp [tokensLoop] at hmem
  | succ fuel ih =>
    intro s tbl val hmem hnone
    cases s with
    | nil => simp [tokensLoop] at hmem
    | cons c cs =>
      rcases hlex : lex (c :: cs) with ⟨ty0, n0⟩
      have hnone2 : tbl val = none := Option.isNone_iff_eq_none.mp hnone
      simp only [tokensLoop, hlex, List.mem_cons] at hmem
      cases hmem with
      | inl heq =>
        rw [Prod.mk.injEq] at heq
        obtain ⟨hty0, hval⟩ := heq
        subst hval
        refine ⟨(c :: cs).take n0, ?_⟩
        simp [parseLoop, hlex, ← hty0, hnone2]
      | inr hmem2 =>
        obtain ⟨e, he⟩ := ih ((c :: cs).drop n0) tbl val hmem2 hnone
        cases ty0 with
        | text => exact ⟨e, by simp [parseLoop, hlex, he, Except.map]⟩
        | header => exact ⟨e, by simp [parseLoop, hlex, he, Except.map]⟩
        | field =>
          cases htbl : tbl ((c :: cs).take n0) with
          | none => exact ⟨(c :: cs).take n0, by simp [parseLoop, hlex, htbl]⟩
          | some f => exact ⟨e, by simp [parseLoop, hlex, htbl, he, Except.map]⟩

/-- C1: a format string containing a field token (non-header) whose exact
text is absent from the field table fails to compile with an
invalid-field error carrying the offending name; the `Except.error`
result carries no pattern, not even a partial one. -/
theorem parse_unknown_field_fails :
    ∀ (format : List Char) (tbl : List Char → Option field) (val : List Char),
      (itemType.field, val) ∈ tokens format → (tbl val).isNone = true →
      ∃ e, parse format tbl = .error e :=
  fun format tbl val hmem hnone =>
    parseLoop_error_of_mem format.length format tbl val hmem hnone

theorem parse_unknown_field_fails_witness :
    ∃ e, parse "$bogus".toList fields = .error e :=
  parse_unknown_field_fails "$bogus".toList fields "$bogus".toList (by decide) (by decide)

theorem response_time_renders_witness :
    responseTimeMs [] sampleT1 sampleT2 sampleResp sampleReq = [] ++ "0.123".toList ∧
    responseTimeUs [] sampleT1 sampleT2 sampleResp sampleReq = [] ++ "0.123456".toList ∧
    responseTimeNs [] sampleT1 sampleT2 sampleResp sampleReq = [] ++ "0.123456789".toList :=
  (response_time_renders [] sampleT1 sampleT2 sampleResp sampleReq 123456789 (by decide)).2
    rfl

end Logger
